import Mathlib

/-!
Shallow embedding of the downstream connection registry of mcp-composer
(`src/downstream_controller.py`) and of the server-management boundary
endpoints (`src/api.py`), together with proofs of the registry's stated
properties.

Python dictionaries are modelled as association lists with Python's
insertion semantics: assignment to an existing key overwrites the value in
place, assignment to a fresh key appends at the end, `pop`/`del` removes
the (unique) entry with the key.  `DownstreamMCPServer`,
`DownstreamMCPServerTool` and `DownstreamMCPServerConfig` live in
`domain/downstream_server.py`, which is not part of the sources at hand,
so those are modelled from the spec (see their doc comments).
-/

namespace MCPComposer

/-- Modelled from the spec: a `DownstreamMCPServerTool` is an immutable
descriptor whose `control_name` combines the owning server's control name
with the tool's own name; only the `control_name` is relevant to the
registry's bookkeeping, so the other descriptor fields are elided. -/
structure Tool where
  control_name : String
  deriving DecidableEq, Repr

/-- Modelled from the spec: a `DownstreamMCPServer` (missing
`domain/downstream_server.py`) owns one downstream connection, is
identified by an immutable `control_name` copied from its config, and
serves a tool catalogue via `list_tools()`.  `sid` models Python object
identity (each constructed server is a fresh object); `tools` models the
connection's tool catalogue, assumed stable, so `list_tools` returns the
same list whenever it is consulted. -/
structure Server where
  sid : Nat
  control_name : String
  tools : List Tool
  deriving DecidableEq, Repr

/-- Modelled from the spec: `server.get_control_name()` returns the
immutable identity. -/
def Server.get_control_name (s : Server) : String :=
  s.control_name

/-- Modelled from the spec: `server.list_tools()` queries the connection
for its tool catalogue; the model treats the catalogue as fixed, and the
(unsafe) fact that the code consults it again after shutdown is tracked
separately through the call trace of `remove_server_t`. -/
def Server.list_tools (s : Server) : List Tool :=
  s.tools

/-- Modelled from the spec: a `DownstreamMCPServerConfig` carries a unique
control name `name` plus a connection descriptor (process command or URL),
which the registry never inspects itself; only `name` is retained. -/
structure Config where
  name : String
  deriving DecidableEq, Repr

/-- Association-list model of a Python `dict` with `String` keys. -/
abbrev Dict (α : Type) := List (String × α)

/-- Python `d[k] = v`: overwrite in place if `k` is present, else append. -/
def dinsert (k : String) (v : α) : Dict α → Dict α
  | [] => [(k, v)]
  | (k', v') :: rest => if k' = k then (k, v) :: rest else (k', v') :: dinsert k v rest

/-- Python `d.get(k)` / `d[k]` lookup. -/
def dlookup (k : String) : Dict α → Option α
  | [] => none
  | (k', v') :: rest => if k' = k then some v' else dlookup k rest

/-- Python `d.pop(k)` / `del d[k]`: drop the first entry with key `k`. -/
def dremove (k : String) : Dict α → Dict α
  | [] => []
  | (k', v') :: rest => if k' = k then rest else (k', v') :: dremove k rest

/-- Python `k in d`. -/
def dmem (k : String) (d : Dict α) : Bool :=
  (dlookup k d).isSome

/-- The key list of a dict. -/
def dkeys (d : Dict α) : List String :=
  d.map Prod.fst

/-- The state of a `DownstreamController`: the ordered
`_all_servers_tools` list, the `_servers_map` and `_tools_map` dicts and
the `_initialized` flag (`downstream_controller.py`, `__init__`). -/
structure Registry where
  all_servers_tools : List (Server × List Tool)
  servers_map : Dict Server
  tools_map : Dict Tool
  initialized : Bool
  deriving DecidableEq, Repr

/-- A freshly constructed `DownstreamController`: empty maps, empty list,
not yet initialized. -/
def Registry.empty : Registry :=
  ⟨[], [], [], false⟩

/-- Inserting a server's tools into `_tools_map`
(`for tool in tools: self._tools_map[tool.control_name] = tool`). -/
def insertTools (tools : List Tool) (m : Dict Tool) : Dict Tool :=
  tools.foldl (fun m t => dinsert t.control_name t m) m

/-- `register_downstream_mcp_server` after a successful
`server.initialize`: insert into `_servers_map`, fetch the tool list,
append to `_all_servers_tools`, index every tool
(`downstream_controller.py` lines 38-45). -/
def registerServer (st : Registry) (server : Server) : Registry :=
  let tools := server.list_tools
  { st with
    servers_map := dinsert server.get_control_name server st.servers_map
    all_servers_tools := st.all_servers_tools ++ [(server, tools)]
    tools_map := insertTools tools st.tools_map }

/-- `add_server` performs, under the lock, exactly the same state change
as `register_downstream_mcp_server` (`downstream_controller.py` lines
62-74). -/
def add_server (st : Registry) (server : Server) : Registry :=
  registerServer st server

/-- A call the registry makes on a downstream server: `server.shutdown()`
or `server.list_tools()`.  Used to trace the order of downstream calls
made by `remove_server`. -/
inductive DCall where
  | shutdownCall (s : Server)
  | listToolsCall (s : Server)
  deriving DecidableEq, Repr

/-- `remove_server` (`downstream_controller.py` lines 76-101), returning
the new state together with the trace of downstream calls in program
order: no-op if the name is absent; otherwise pop from `_servers_map`,
call `server.shutdown()`, filter `_all_servers_tools` by object
inequality, then call `server.list_tools()` again (line 97,
`tools_to_remove = await server.list_tools()`) and delete each listed
tool name that is present in `_tools_map`. -/
def remove_server_t (st : Registry) (name : String) : Registry × List DCall :=
  match dlookup name st.servers_map with
  | none => (st, [])
  | some server =>
    let smap := dremove name st.servers_map
    let ast := st.all_servers_tools.filter (fun p => decide (p.1 ≠ server))
    let tools_to_remove := server.list_tools
    let tmap := tools_to_remove.foldl
      (fun m t => if dmem t.control_name m then dremove t.control_name m else m)
      st.tools_map
    ({ st with servers_map := smap, all_servers_tools := ast, tools_map := tmap },
     [DCall.shutdownCall server, DCall.listToolsCall server])

/-- The state change of `remove_server`. -/
def remove_server (st : Registry) (name : String) : Registry :=
  (remove_server_t st name).1

/-- `list_all_servers_tools` (`downstream_controller.py` lines 47-50). -/
def list_all_servers_tools (st : Registry) : List (Server × List Tool) :=
  st.all_servers_tools

/-- `get_server_by_control_name` (lines 57-60); `none` models the
`KeyError` a Python dict lookup raises on a missing key. -/
def get_server_by_control_name (st : Registry) (name : String) : Option Server :=
  dlookup name st.servers_map

/-- `get_tool_by_control_name` (lines 52-55). -/
def get_tool_by_control_name (st : Registry) (name : String) : Option Tool :=
  dlookup name st.tools_map

/-- Result of `DownstreamController.shutdown`: which servers had their
`shutdown()` run to completion, whether `exit_stack.aclose()` was
reached, and the server whose `shutdown()` raised, if any. -/
structure ShutdownResult where
  shut : List Server
  stack_closed : Bool
  err : Option Server
  deriving DecidableEq, Repr

/-- The `for server, _ in self._all_servers_tools: await server.shutdown()`
loop followed by `await self.exit_stack.aclose()` (lines 32-36).  `fails`
gives the behaviour of each connection's `shutdown()` (`true` = raises).
An exception propagates out of the loop at once: later servers are not
shut down and — because the code has no try/finally — `aclose` is never
reached, so `stack_closed` is `false`. -/
def shutdownLoop (fails : Server → Bool) : List Server → ShutdownResult
  | [] => ⟨[], true, none⟩
  | s :: rest =>
    if fails s then ⟨[], false, some s⟩
    else
      let r := shutdownLoop fails rest
      ⟨s :: r.shut, r.stack_closed, r.err⟩

/-- `DownstreamController.shutdown` over the current registry state. -/
def shutdownController (st : Registry) (fails : Server → Bool) : ShutdownResult :=
  shutdownLoop fails (st.all_servers_tools.map Prod.fst)

/-- `initialize` (`downstream_controller.py` lines 23-27): register each
config sequentially; `build` models `DownstreamMCPServer(config)` plus
`server.initialize(exit_stack)`, returning `none` when construction or
initialization raises.  The first failure propagates, aborting the loop
with the state reached so far; on full success the `_initialized` flag is
set.  Returns the state and the config whose registration failed, if
any. -/
def initializeConfigs (build : Config → Option Server) :
    Registry → List Config → Registry × Option Config
  | st, [] => ({ st with initialized := true }, none)
  | st, c :: cs =>
    match build c with
    | none => (st, some c)
    | some server => initializeConfigs build (registerServer st server) cs

/-- Folding successful registrations over a config list (used to state
what `initializeConfigs` has done so far). -/
def registerAll (build : Config → Option Server) (st : Registry) (cs : List Config) :
    Registry :=
  cs.foldl (fun s c => match build c with | some sv => registerServer s sv | none => s) st

/-- Outcome of the `POST /servers/` endpoint, `add_new_server`
(`api.py` lines 123-150). -/
inductive ApiResult where
  | created (name : String)
  | conflict (name : String)
  | internalError (name : String)
  deriving DecidableEq, Repr

/-- The HTTP status code of each outcome (201 / 409 / 500). -/
def ApiResult.statusCode : ApiResult → Nat
  | .created _ => 201
  | .conflict _ => 409
  | .internalError _ => 500

/-- Outcome of the boundary add operation: the HTTP result, the registry
state afterwards and whether `controller.add_server` was invoked. -/
structure ApiOutcome where
  result : ApiResult
  state : Registry
  add_invoked : Bool
  deriving DecidableEq, Repr

/-- `add_new_server` (`api.py` lines 123-150): probe
`get_server_by_control_name(config.name)`; if it returns (no `KeyError`)
raise 409 without touching the registry; on `KeyError` call
`controller.add_server(config)` and answer 201, mapping any exception
from it to 500.  A `build` failure models `add_server` raising while
constructing/initializing the connection, before any map mutation. -/
def add_new_server (build : Config → Option Server) (st : Registry) (cfg : Config) :
    ApiOutcome :=
  match dlookup cfg.name st.servers_map with
  | some _ => ⟨.conflict cfg.name, st, false⟩
  | none =>
    match build cfg with
    | none => ⟨.internalError cfg.name, st, true⟩
    | some server => ⟨.created cfg.name, add_server st server, true⟩

/-- A mutation call on the registry. -/
inductive Op where
  | add (s : Server)
  | remove (name : String)
  deriving DecidableEq, Repr

/-- Apply one mutation. -/
def applyOp (st : Registry) : Op → Registry
  | .add s => add_server st s
  | .remove n => remove_server st n

/-- Run a sequence of mutations. -/
def runOps (st : Registry) (ops : List Op) : Registry :=
  ops.foldl applyOp st

/-- The servers passed to `add_server` along a call sequence, in call
order. -/
def addedServers : List Op → List Server
  | [] => []
  | Op.add s :: rest => s :: addedServers rest
  | Op.remove _ :: rest => addedServers rest

/-- The control names of a list of servers. -/
def serverNames (l : List Server) : List String :=
  l.map Server.control_name

/-- The derived control names of a server's tools. -/
def toolNames (s : Server) : List String :=
  s.tools.map Tool.control_name

/-- The (server, tool-list) pairs that survive a call sequence: each added
server, in call order, unless a later `remove_server` of its control name
occurs. -/
def survivors : List Op → List (Server × List Tool)
  | [] => []
  | Op.add s :: rest =>
    if Op.remove s.control_name ∈ rest then survivors rest
    else (s, s.list_tools) :: survivors rest
  | Op.remove _ :: rest => survivors rest

/-- The key set of `_tools_map` coincides with the union of the tool
control names of the currently registered servers. -/
def ToolIndexMatches (st : Registry) : Prop :=
  ∀ k, dmem k st.tools_map = true ↔ ∃ q ∈ st.servers_map, k ∈ toolNames q.2

/-- The last tool in a list bearing a given control name (later list
entries overwrite earlier ones in `_tools_map`). -/
def lastToolNamed (k : String) : List Tool → Option Tool
  | [] => none
  | t :: ts =>
    match lastToolNamed k ts with
    | some t' => some t'
    | none => if t.control_name = k then some t else none

/-- Purging a list of keys from a dict, in order. -/
def dpurge (names : List String) (m : Dict α) : Dict α :=
  names.foldl (fun m k => dremove k m) m

/-- The distinctness hypothesis of the registry's invariant: along a call
sequence, all server control names are pairwise distinct, and so are all
derived tool control names. -/
def DistinctNames (ops : List Op) : Prop :=
  (serverNames (addedServers ops)).Nodup ∧
  ((addedServers ops).flatMap toolNames).Nodup

/-- Consistency of a reachable registry state with the list `added` of
servers registered so far: the ordered list and the server map describe
the same servers, keyed by their control names, with no key duplicated. -/
structure GoodL (added : List Server) (st : Registry) : Prop where
  lnames_nodup : (st.all_servers_tools.map (fun p => p.1.control_name)).Nodup
  list_lookup : ∀ p ∈ st.all_servers_tools,
    dlookup p.1.control_name st.servers_map = some p.1 ∧ p.2 = p.1.tools
  map_list : ∀ q ∈ st.servers_map,
    q.2.control_name = q.1 ∧ (q.2, q.2.tools) ∈ st.all_servers_tools
  smk_nodup : (dkeys st.servers_map).Nodup
  subL : ∀ q ∈ st.servers_map, q.2 ∈ added

/-- `GoodL` extended with the tool-index invariant: `_tools_map` has no
duplicate keys and its key set is the union of the registered servers'
tool control names. -/
structure GoodT (added : List Server) (st : Registry) : Prop where
  goodL : GoodL added st
  tmk_nodup : (dkeys st.tools_map).Nodup
  tools_iff : ∀ k, dmem k st.tools_map = true ↔ ∃ q ∈ st.servers_map, k ∈ toolNames q.2

/-- Concrete server "A" with one tool, for evaluating the code on
concrete inputs. -/
def exToolA : Tool := ⟨"A.t1"⟩

/-- Concrete server "A". -/
def exServerA : Server := ⟨1, "A", [exToolA]⟩

/-- Concrete server "B", no tools. -/
def exServerB : Server := ⟨2, "B", []⟩

/-- Registry holding exactly server "A". -/
def exRegistryA : Registry := add_server Registry.empty exServerA

/-- Registry holding servers "A" then "B". -/
def exRegistryAB : Registry := add_server exRegistryA exServerB

/-- A second server object bearing the control name "A" (a distinct
Python object, hence a distinct `sid`). -/
def exServerA2 : Server := ⟨9, "A", [exToolA]⟩

/-- Concrete fresh tool for server "C". -/
def exToolC : Tool := ⟨"C.t1"⟩

/-- Concrete fresh server "C". -/
def exServerC : Server := ⟨3, "C", [exToolC]⟩

/-- Concrete connection constructor behaviour: configs named "bad" fail
to initialize, every other config yields a fresh connection with no
tools. -/
def exBuild : Config → Option Server :=
  fun c => if c.name = "bad" then none else some ⟨7, c.name, []⟩

/-- Concrete shutdown behaviour: the connection with `sid` 1 raises from
`shutdown()`, all others shut down cleanly. -/
def exFails : Server → Bool :=
  fun s => s.sid == 1

/-! ### Dictionary lemmas -/

theorem dmem_false_iff {m : Dict α} : dmem k m = false ↔ dlookup k m = none := by
  cases h : dlookup k m <;> simp [dmem, h]

theorem dmem_true_iff {m : Dict α} : dmem k m = true ↔ ∃ v, dlookup k m = some v := by
  cases h : dlookup k m <;> simp [dmem, h]

theorem dlookup_dinsert_self (k : String) (v : α) (m : Dict α) :
    dlookup k (dinsert k v m) = some v := by
  induction m with
  | nil => simp [dinsert, dlookup]
  | cons p rest ih =>
    by_cases h : p.1 = k <;> simp [dinsert, dlookup, h, ih]

theorem dlookup_dinsert_ne {k k' : String} (v : α) (m : Dict α) (h : k' ≠ k) :
    dlookup k' (dinsert k v m) = dlookup k' m := by
  induction m with
  | nil => simp [dinsert, dlookup, Ne.symm h]
  | cons p rest ih =>
    by_cases hp : p.1 = k
    · subst hp
      simp [dinsert, dlookup, h, Ne.symm h]
    · by_cases hq : p.1 = k' <;> simp [dinsert, dlookup, hp, hq, h, ih]

theorem dmem_dinsert {k k' : String} (v : α) (m : Dict α) :
    dmem k' (dinsert k v m) = true ↔ k' = k ∨ dmem k' m = true := by
  by_cases h : k' = k
  · subst h
    simp [dmem, dlookup_dinsert_self]
  · rw [dmem, dmem, dlookup_dinsert_ne v m h]
    simp [h]

theorem mem_dinsert {p : String × α} {m : Dict α} (h : p ∈ dinsert k v m) :
    p = (k, v) ∨ p ∈ m := by
  induction m with
  | nil =>
    simp only [dinsert, List.mem_singleton] at h
    exact Or.inl h
  | cons q rest ih =>
    by_cases hq : q.1 = k
    · simp only [dinsert, hq, if_true] at h
      rcases List.mem_cons.mp h with h | h
      · exact Or.inl h
      · exact Or.inr (List.mem_cons_of_mem _ h)
    · simp only [dinsert, hq, if_false] at h
      rcases List.mem_cons.mp h with h | h
      · exact Or.inr (h ▸ List.mem_cons_self _ _)
      · rcases ih h with h | h
        · exact Or.inl h
        · exact Or.inr (List.mem_cons_of_mem _ h)

theorem mem_dremove {p : String × α} {m : Dict α} (h : p ∈ dremove k m) : p ∈ m := by
  induction m with
  | nil => simp [dremove] at h
  | cons q rest ih =>
    by_cases hq : q.1 = k
    · simp only [dremove, hq, if_true] at h
      exact List.mem_cons_of_mem _ h
    · simp only [dremove, hq, if_false] at h
      rcases List.mem_cons.mp h with h | h
      · exact h ▸ List.mem_cons_self _ _
      · exact List.mem_cons_of_mem _ (ih h)

theorem dlookup_dremove_ne {k k' : String} (m : Dict α) (h : k' ≠ k) :
    dlookup k' (dremove k m) = dlookup k' m := by
  induction m with
  | nil => simp [dremove]
  | cons q rest ih =>
    by_cases hq : q.1 = k
    · subst hq
      simp [dremove, dlookup, Ne.symm h]
    · by_cases hq' : q.1 = k' <;> simp [dremove, dlookup, hq, hq', h, ih]

theorem dkeys_dremove_sublist (k : String) (m : Dict α) :
    (dkeys (dremove k m)).Sublist (dkeys m) := by
  induction m with
  | nil => simp [dremove, dkeys]
  | cons q rest ih =>
    by_cases hq : q.1 = k
    · simp only [dremove, hq, if_true, dkeys]
      exact (List.sublist_cons_self _ _)
    · simp only [dremove, hq, if_false, dkeys, List.map_cons]
      exact List.Sublist.cons₂ _ ih

theorem nodup_dkeys_dremove {m : Dict α} (h : (dkeys m).Nodup) :
    (dkeys (dremove k m)).Nodup :=
  (dkeys_dremove_sublist k m).nodup h

theorem nodup_dkeys_dinsert {m : Dict α} (k : String) (v : α) (h : (dkeys m).Nodup) :
    (dkeys (dinsert k v m)).Nodup := by
  induction m with
  | nil => simp [dinsert, dkeys]
  | cons q rest ih =>
    simp only [dkeys, List.map_cons, List.nodup_cons] at h
    by_cases hq : q.1 = k
    · subst hq
      simp only [dinsert, if_true, dkeys, List.map_cons, List.nodup_cons]
      exact h
    · simp only [dinsert, hq, if_false, dkeys, List.map_cons, List.nodup_cons]
      refine ⟨fun hmem => ?_, ih h.2⟩
      rcases List.mem_map.mp hmem with ⟨p, hp, hpk⟩
      rcases mem_dinsert hp with h' | h'
      · exact hq (by rw [h'] at hpk; exact hpk.symm)
      · exact h.1 (List.mem_map.mpr ⟨p, h', hpk⟩)

theorem dinsert_fresh {m : Dict α} (v : α) (h : dmem k m = false) :
    dinsert k v m = m ++ [(k, v)] := by
  induction m with
  | nil => simp [dinsert]
  | cons q rest ih =>
    simp only [dmem, dlookup] at h
    by_cases hq : q.1 = k
    · simp [hq] at h
    · simp only [dmem, hq, if_false] at h
      simp [dinsert, hq, ih h]

theorem dremove_absent {m : Dict α} (h : dmem k m = false) :
    dremove k m = m := by
  induction m with
  | nil => simp [dremove]
  | cons q rest ih =>
    simp only [dmem, dlookup] at h
    by_cases hq : q.1 = k
    · simp [hq] at h
    · simp only [dmem, hq, if_false] at h
      simp [dremove, hq, ih h]

theorem dlookup_mem {m : Dict α} (h : dlookup k m = some v) : (k, v) ∈ m := by
  induction m with
  | nil => simp [dlookup] at h
  | cons q rest ih =>
    by_cases hq : q.1 = k
    · simp only [dlookup, hq, if_true, Option.some.injEq] at h
      exact List.mem_cons.mpr (Or.inl (by rw [← hq, ← h]))
    · simp only [dlookup, hq, if_false] at h
      exact List.mem_cons_of_mem _ (ih h)

theorem dlookup_of_mem_nodup {m : Dict α} (hnd : (dkeys m).Nodup)
    (h : (k, v) ∈ m) : dlookup k m = some v := by
  induction m with
  | nil => simp at h
  | cons q rest ih =>
    simp only [dkeys, List.map_cons, List.nodup_cons] at hnd
    rcases List.mem_cons.mp h with h | h
    · rw [← h]
      simp [dlookup]
    · by_cases hq : q.1 = k
      · exact absurd (List.mem_map.mpr ⟨(k, v), h, (by simpa using hq.symm)⟩) hnd.1
      · simp only [dlookup, hq, if_false]
        exact ih hnd.2 h

theorem mem_dremove_iff {m : Dict α} {p : String × α} (hnd : (dkeys m).Nodup) :
    p ∈ dremove k m ↔ p ∈ m ∧ p.1 ≠ k := by
  induction m with
  | nil => simp [dremove]
  | cons q rest ih =>
    simp only [dkeys, List.map_cons, List.nodup_cons] at hnd
    by_cases hq : q.1 = k
    · subst hq
      simp only [dremove, if_true]
      constructor
      · intro h
        refine ⟨List.mem_cons_of_mem _ h, fun hp => ?_⟩
        exact hnd.1 (List.mem_map.mpr ⟨p, h, hp⟩)
      · rintro ⟨h, hp⟩
        rcases List.mem_cons.mp h with h | h
        · exact absurd (by rw [h]) hp
        · exact h
    · simp only [dremove, hq, if_false, List.mem_cons, ih hnd.2]
      constructor
      · rintro (h | ⟨h, hp⟩)
        · exact ⟨Or.inl h, by rw [h]; exact hq⟩
        · exact ⟨Or.inr h, hp⟩
      · rintro ⟨h | h, hp⟩
        · exact Or.inl h
        · exact Or.inr ⟨h, hp⟩

theorem dmem_iff_mem_dkeys {m : Dict α} : dmem k m = true ↔ k ∈ dkeys m := by
  induction m with
  | nil => simp [dmem, dlookup, dkeys]
  | cons q rest ih =>
    obtain ⟨a, b⟩ := q
    by_cases hq : a = k
    · simp [dmem, dlookup, dkeys, hq]
    · simpa [dmem, dlookup, dkeys, hq, Ne.symm hq] using ih

theorem dmem_dremove_nodup {m : Dict α} (hnd : (dkeys m).Nodup) :
    dmem k' (dremove k m) = true ↔ dmem k' m = true ∧ k' ≠ k := by
  by_cases h : k' = k
  · subst h
    simp only [dmem_true_iff, ne_eq, not_true_eq_false, and_false, iff_false]
    rintro ⟨v, hv⟩
    have := (mem_dremove_iff hnd).mp (dlookup_mem hv)
    exact this.2 rfl
  · rw [dmem, dmem, dlookup_dremove_ne m h]
    simp [h]

theorem dinsert_append {m e : Dict α} (v : α) (h : dmem k m = false) :
    dinsert k v (m ++ e) = m ++ dinsert k v e := by
  induction m with
  | nil => simp
  | cons q rest ih =>
    simp only [dmem, dlookup] at h
    by_cases hq : q.1 = k
    · simp [hq] at h
    · simp only [dmem, hq, if_false] at h
      simp [dinsert, hq, ih h]

theorem dremove_append {m e : Dict α} (h : dmem k m = false) :
    dremove k (m ++ e) = m ++ dremove k e := by
  induction m with
  | nil => simp
  | cons q rest ih =>
    simp only [dmem, dlookup] at h
    by_cases hq : q.1 = k
    · simp [hq] at h
    · simp only [dmem, hq, if_false] at h
      simp [dremove, hq, ih h]

/-! ### Lemmas about `insertTools` and purging -/

theorem dmem_insertTools {tools : List Tool} :
    ∀ {m : Dict Tool},
      dmem k (insertTools tools m) = true ↔
        k ∈ tools.map Tool.control_name ∨ dmem k m = true := by
  induction tools with
  | nil => simp [insertTools]
  | cons t ts ih =>
    intro m
    have : insertTools (t :: ts) m = insertTools ts (dinsert t.control_name t m) := rfl
    rw [this, ih, dmem_dinsert]
    simp only [List.map_cons, List.mem_cons]
    tauto

theorem nodup_dkeys_insertTools {tools : List Tool} :
    ∀ {m : Dict Tool}, (dkeys m).Nodup → (dkeys (insertTools tools m)).Nodup := by
  induction tools with
  | nil => intro m h; exact h
  | cons t ts ih =>
    intro m h
    exact ih (nodup_dkeys_dinsert t.control_name t h)

theorem purge_eq (tools : List Tool) :
    ∀ m : Dict Tool,
      tools.foldl
        (fun m t => if dmem t.control_name m then dremove t.control_name m else m) m
      = dpurge (tools.map Tool.control_name) m := by
  induction tools with
  | nil => intro m; rfl
  | cons t ts ih =>
    intro m
    have hg : (if dmem t.control_name m then dremove t.control_name m else m)
        = dremove t.control_name m := by
      cases h : dmem t.control_name m with
      | false => simp [dremove_absent h]
      | true => simp
    calc (t :: ts).foldl
          (fun m t => if dmem t.control_name m then dremove t.control_name m else m) m
        = ts.foldl (fun m t => if dmem t.control_name m then dremove t.control_name m else m)
            (if dmem t.control_name m then dremove t.control_name m else m) := rfl
      _ = dpurge (ts.map Tool.control_name) (dremove t.control_name m) := by rw [hg, ih]
      _ = dpurge ((t :: ts).map Tool.control_name) m := rfl

theorem nodup_dkeys_dpurge {names : List String} :
    ∀ {m : Dict α}, (dkeys m).Nodup → (dkeys (dpurge names m)).Nodup := by
  induction names with
  | nil => intro m h; exact h
  | cons n ns ih => intro m h; exact ih (nodup_dkeys_dremove h)

theorem dmem_dpurge {names : List String} :
    ∀ {m : Dict α}, (dkeys m).Nodup →
      (dmem k (dpurge names m) = true ↔ dmem k m = true ∧ k ∉ names) := by
  induction names with
  | nil => intro m _; simp [dpurge]
  | cons n ns ih =>
    intro m h
    have : dpurge (n :: ns) m = dpurge ns (dremove n m) := rfl
    rw [this, ih (nodup_dkeys_dremove h), dmem_dremove_nodup h]
    simp only [List.mem_cons]
    tauto

theorem dkeys_dinsert_mem {m : Dict α} (h : k' ∈ dkeys (dinsert k v m)) :
    k' = k ∨ k' ∈ dkeys m := by
  have := (@dmem_dinsert _ k k' v m).mp (dmem_iff_mem_dkeys.mpr h)
  rcases this with h' | h'
  · exact Or.inl h'
  · exact Or.inr (dmem_iff_mem_dkeys.mp h')

theorem insertTools_split {tools : List Tool} :
    ∀ (m e : Dict Tool), (∀ t ∈ tools, dmem t.control_name m = false) →
      ∃ e', insertTools tools (m ++ e) = m ++ e' ∧
        (∀ k ∈ dkeys e', k ∈ dkeys e ∨ k ∈ tools.map Tool.control_name) ∧
        ((dkeys e).Nodup → (dkeys e').Nodup) := by
  induction tools with
  | nil => intro m e _; exact ⟨e, rfl, fun k hk => Or.inl hk, fun h => h⟩
  | cons t ts ih =>
    intro m e h
    have hm : dmem t.control_name m = false := h t (List.mem_cons_self _ _)
    have hstep : insertTools (t :: ts) (m ++ e)
        = insertTools ts (m ++ dinsert t.control_name t e) := by
      show insertTools ts (dinsert t.control_name t (m ++ e)) = _
      rw [dinsert_append t hm]
    rcases ih m (dinsert t.control_name t e)
        (fun t' ht' => h t' (List.mem_cons_of_mem _ ht')) with ⟨e', he', hsub, hnd⟩
    refine ⟨e', by rw [hstep, he'], fun k hk => ?_, fun hnod => ?_⟩
    · rcases hsub k hk with h' | h'
      · rcases dkeys_dinsert_mem h' with h'' | h''
        · exact Or.inr (by simp [h''])
        · exact Or.inl h''
      · exact Or.inr (by simp only [List.map_cons, List.mem_cons]; exact Or.inr h')
    · exact hnd (nodup_dkeys_dinsert _ _ hnod)

theorem dpurge_cancel {names : List String} :
    ∀ (m e : Dict α), (∀ n ∈ names, dmem n m = false) → (dkeys e).Nodup →
      (∀ k ∈ dkeys e, k ∈ names) → dpurge names (m ++ e) = m := by
  induction names with
  | nil =>
    intro m e _ _ hsub
    have : e = [] := by
      cases e with
      | nil => rfl
      | cons p rest => exact absurd (hsub p.1 (by simp [dkeys])) (by simp)
    simp [dpurge, this]
  | cons n ns ih =>
    intro m e h hnd hsub
    have hm : dmem n m = false := h n (List.mem_cons_self _ _)
    have hstep : dpurge (n :: ns) (m ++ e) = dpurge ns (m ++ dremove n e) := by
      show dpurge ns (dremove n (m ++ e)) = _
      rw [dremove_append hm]
    rw [hstep]
    refine ih m (dremove n e) (fun n' hn' => h n' (List.mem_cons_of_mem _ hn'))
      (nodup_dkeys_dremove hnd) (fun k hk => ?_)
    have hk' : dmem k (dremove n e) = true := dmem_iff_mem_dkeys.mpr hk
    have := (dmem_dremove_nodup hnd).mp hk'
    rcases List.mem_cons.mp (hsub k (dmem_iff_mem_dkeys.mp this.1)) with h' | h'
    · exact absurd h' this.2
    · exact h'

theorem dlookup_insertTools (k : String) {tools : List Tool} :
    ∀ m : Dict Tool,
      dlookup k (insertTools tools m) =
        match lastToolNamed k tools with
        | some t => some t
        | none => dlookup k m := by
  induction tools with
  | nil => intro m; rfl
  | cons t ts ih =>
    intro m
    have hstep : insertTools (t :: ts) m = insertTools ts (dinsert t.control_name t m) := rfl
    rw [hstep, ih]
    cases hl : lastToolNamed k ts with
    | some t' => simp [lastToolNamed, hl]
    | none =>
      by_cases hk : t.control_name = k
      · subst hk
        simp [lastToolNamed, hl, dlookup_dinsert_self]
      · simp [lastToolNamed, hl, hk, dlookup_dinsert_ne t m (Ne.symm hk)]

/-! ### Step characterizations of the registry operations -/

theorem add_server_def (st : Registry) (s : Server) :
    add_server st s =
      { st with
        servers_map := dinsert s.control_name s st.servers_map
        all_servers_tools := st.all_servers_tools ++ [(s, s.tools)]
        tools_map := insertTools s.tools st.tools_map } := rfl

theorem remove_server_t_absent {st : Registry} {n : String}
    (h : dlookup n st.servers_map = none) :
    remove_server_t st n = (st, []) := by
  unfold remove_server_t
  rw [h]

theorem remove_server_t_found {st : Registry} {n : String} {server : Server}
    (h : dlookup n st.servers_map = some server) :
    remove_server_t st n =
      ({ st with
          servers_map := dremove n st.servers_map
          all_servers_tools :=
            st.all_servers_tools.filter (fun p => decide (p.1 ≠ server))
          tools_map := dpurge (toolNames server) st.tools_map },
        [DCall.shutdownCall server, DCall.listToolsCall server]) := by
  unfold remove_server_t
  rw [h]
  simp only [purge_eq]
  rfl

/-! ### Preservation of the reachable-state invariant -/

theorem GoodL_nil : GoodL [] Registry.empty := by
  constructor <;> simp [Registry.empty, dkeys]

theorem GoodL_key_fresh {added : List Server} {st : Registry} (g : GoodL added st)
    {s : Server} (hfresh : s.control_name ∉ serverNames added) :
    dmem s.control_name st.servers_map = false := by
  cases h : dmem s.control_name st.servers_map with
  | false => rfl
  | true =>
    rcases dmem_true_iff.mp h with ⟨v, hv⟩
    have hmem := dlookup_mem hv
    have h1 := (g.map_list _ hmem).1
    have h2 := g.subL _ hmem
    exact absurd (List.mem_map.mpr ⟨v, h2, h1⟩) hfresh

theorem GoodL_list_fresh {added : List Server} {st : Registry} (g : GoodL added st)
    {s : Server} (hfresh : s.control_name ∉ serverNames added) :
    s.control_name ∉ st.all_servers_tools.map (fun p => p.1.control_name) := by
  intro hmem
  rcases List.mem_map.mp hmem with ⟨p, hp, hpk⟩
  have h1 := (g.list_lookup p hp).1
  have h2 := g.subL _ (dlookup_mem h1)
  exact hfresh (List.mem_map.mpr ⟨p.1, h2, hpk⟩)

theorem GoodL_add {added : List Server} {st : Registry} (g : GoodL added st)
    {s : Server} (hfresh : s.control_name ∉ serverNames added) :
    GoodL (added ++ [s]) (add_server st s) := by
  have hkey := GoodL_key_fresh g hfresh
  have hlist := GoodL_list_fresh g hfresh
  rw [add_server_def]
  constructor
  · rw [List.map_append]
    refine List.nodup_append.mpr ⟨g.lnames_nodup, by simp, ?_⟩
    intro a ha hb
    simp only [List.map_cons, List.map_nil, List.mem_singleton] at hb
    exact hlist (hb ▸ ha)
  · intro p hp
    rcases List.mem_append.mp hp with hp | hp
    · have hne : p.1.control_name ≠ s.control_name := by
        intro heq
        exact hlist (heq ▸ List.mem_map.mpr ⟨p, hp, rfl⟩)
      rw [dlookup_dinsert_ne s st.servers_map hne]
      exact g.list_lookup p hp
    · rcases List.mem_singleton.mp hp with rfl
      exact ⟨dlookup_dinsert_self _ _ _, rfl⟩
  · intro q hq
    rcases mem_dinsert hq with rfl | hq
    · exact ⟨rfl, List.mem_append.mpr (Or.inr (List.mem_singleton.mpr rfl))⟩
    · rcases g.map_list q hq with ⟨h1, h2⟩
      exact ⟨h1, List.mem_append.mpr (Or.inl h2)⟩
  · exact nodup_dkeys_dinsert _ _ g.smk_nodup
  · intro q hq
    rcases mem_dinsert hq with rfl | hq
    · exact List.mem_append.mpr (Or.inr (List.mem_singleton.mpr rfl))
    · exact List.mem_append.mpr (Or.inl (g.subL q hq))

theorem GoodL_remove {added : List Server} {st : Registry} (g : GoodL added st)
    (n : String) : GoodL added (remove_server st n) := by
  cases h : dlookup n st.servers_map with
  | none =>
    have hnoop : remove_server st n = st := by
      unfold remove_server
      rw [remove_server_t_absent h]
    rw [hnoop]
    exact g
  | some server =>
    have hser := dlookup_mem h
    have hname : server.control_name = n := (g.map_list _ hser).1
    have hd : remove_server st n =
        { st with
          servers_map := dremove n st.servers_map
          all_servers_tools :=
            st.all_servers_tools.filter (fun p => decide (p.1 ≠ server))
          tools_map := dpurge (toolNames server) st.tools_map } := by
      unfold remove_server
      rw [remove_server_t_found h]
    rw [hd]
    constructor
    · exact g.lnames_nodup.sublist ((List.filter_sublist _).map _)
    · intro p hp
      rcases List.mem_filter.mp hp with ⟨hmem, hdec⟩
      have hps : p.1 ≠ server := of_decide_eq_true hdec
      have hpn : p.1.control_name ≠ n := by
        intro heq
        have := (g.list_lookup p hmem).1
        rw [heq, h] at this
        exact hps (Option.some.injEq _ _ ▸ this.symm ▸ rfl)
      rw [dlookup_dremove_ne st.servers_map hpn]
      exact g.list_lookup p hmem
    · intro q hq
      rcases (mem_dremove_iff g.smk_nodup).mp hq with ⟨hq, hqn⟩
      rcases g.map_list q hq with ⟨h1, h2⟩
      refine ⟨h1, List.mem_filter.mpr ⟨h2, decide_eq_true ?_⟩⟩
      intro heq
      have heq' : q.2 = server := heq
      exact hqn (by rw [← h1, heq', hname])
    · exact nodup_dkeys_dremove g.smk_nodup
    · intro q hq
      exact g.subL q (mem_dremove hq)

theorem GoodT_nil : GoodT [] Registry.empty := by
  refine ⟨GoodL_nil, by simp [Registry.empty, dkeys], fun k => ?_⟩
  simp [Registry.empty, dmem, dlookup]

theorem GoodT_add {added : List Server} {st : Registry} (g : GoodT added st)
    {s : Server} (hfresh : s.control_name ∉ serverNames added) :
    GoodT (added ++ [s]) (add_server st s) := by
  have hkey := GoodL_key_fresh g.goodL hfresh
  refine ⟨GoodL_add g.goodL hfresh, ?_, fun k => ?_⟩
  · rw [add_server_def]
    exact nodup_dkeys_insertTools g.tmk_nodup
  · rw [add_server_def]
    show dmem k (insertTools s.tools st.tools_map) = true ↔
      ∃ q ∈ dinsert s.control_name s st.servers_map, k ∈ toolNames q.2
    rw [dmem_insertTools, dinsert_fresh s hkey, g.tools_iff k]
    constructor
    · rintro (hk | ⟨q, hq, hk⟩)
      · exact ⟨(s.control_name, s), List.mem_append.mpr (Or.inr (by simp)), hk⟩
      · exact ⟨q, List.mem_append.mpr (Or.inl hq), hk⟩
    · rintro ⟨q, hq, hk⟩
      rcases List.mem_append.mp hq with hq | hq
      · exact Or.inr ⟨q, hq, hk⟩
      · rcases List.mem_singleton.mp hq with rfl
        exact Or.inl hk

theorem GoodT_remove {added : List Server} {st : Registry} (g : GoodT added st)
    (n : String)
    (hdisj : ∀ a ∈ added, ∀ b ∈ added, a ≠ b →
      ∀ x ∈ toolNames a, x ∈ toolNames b → False) :
    GoodT added (remove_server st n) := by
  cases h : dlookup n st.servers_map with
  | none =>
    have hnoop : remove_server st n = st := by
      unfold remove_server
      rw [remove_server_t_absent h]
    rw [hnoop]
    exact g
  | some server =>
    have hser := dlookup_mem h
    have hname : server.control_name = n := (g.goodL.map_list _ hser).1
    have hd : remove_server st n =
        { st with
          servers_map := dremove n st.servers_map
          all_servers_tools :=
            st.all_servers_tools.filter (fun p => decide (p.1 ≠ server))
          tools_map := dpurge (toolNames server) st.tools_map } := by
      unfold remove_server
      rw [remove_server_t_found h]
    refine ⟨GoodL_remove g.goodL n, ?_, fun k => ?_⟩
    · rw [hd]
      exact nodup_dkeys_dpurge g.tmk_nodup
    · rw [hd]
    -- goal: purge membership ↔ existence over the shrunken map
      show dmem k (dpurge (toolNames server) st.tools_map) = true ↔
        ∃ q ∈ dremove n st.servers_map, k ∈ toolNames q.2
      rw [dmem_dpurge g.tmk_nodup, g.tools_iff k]
      constructor
      · rintro ⟨⟨q, hq, hk⟩, hknot⟩
        refine ⟨q, (mem_dremove_iff g.goodL.smk_nodup).mpr ⟨hq, fun hqn => ?_⟩, hk⟩
        have : q.2 = server := by
          have hl := dlookup_of_mem_nodup g.goodL.smk_nodup
            (show (q.1, q.2) ∈ st.servers_map from hq)
          rw [hqn, h] at hl
          exact (Option.some.inj hl).symm
        exact hknot (this ▸ hk)
      · rintro ⟨q, hq, hk⟩
        rcases (mem_dremove_iff g.goodL.smk_nodup).mp hq with ⟨hq, hqn⟩
        refine ⟨⟨q, hq, hk⟩, fun hks => ?_⟩
        have hq2 : q.2 ∈ added := g.goodL.subL q hq
        have hs2 : server ∈ added := g.goodL.subL _ hser
        have hne : q.2 ≠ server := by
          intro heq
          exact hqn (by rw [← (g.goodL.map_list q hq).1, heq, hname])
        exact hdisj q.2 hq2 server hs2 hne k hk hks

/-- Running a call sequence from a `GoodT` state with globally distinct
control names lands in a `GoodT` state. -/
theorem GoodT_run (ops : List Op) :
    ∀ {st : Registry} {added : List Server}, GoodT added st →
      (serverNames (added ++ addedServers ops)).Nodup →
      ((added ++ addedServers ops).flatMap toolNames).Nodup →
      GoodT (added ++ addedServers ops) (runOps st ops) := by
  induction ops with
  | nil =>
    intro st added g h1 h2
    simpa [runOps, addedServers] using g
  | cons op rest ih =>
    intro st added g h1 h2
    cases op with
    | add s =>
      have hstep : runOps st (Op.add s :: rest) = runOps (add_server st s) rest := rfl
      have hAS : addedServers (Op.add s :: rest) = s :: addedServers rest := rfl
      rw [hAS] at h1 h2
      have hfresh : s.control_name ∉ serverNames added := by
        have hnd := h1
        rw [serverNames, List.map_append, List.map_cons] at hnd
        intro hmem
        exact (List.nodup_append.mp hnd).2.2 hmem (List.mem_cons_self _ _)
      have h1' : (serverNames ((added ++ [s]) ++ addedServers rest)).Nodup := by
        rw [List.append_assoc, List.singleton_append]
        exact h1
      have h2' : (((added ++ [s]) ++ addedServers rest).flatMap toolNames).Nodup := by
        rw [List.append_assoc, List.singleton_append]
        exact h2
      have := ih (GoodT_add g hfresh) h1' h2'
      rw [hstep, hAS]
      simpa [List.append_assoc, List.singleton_append] using this
    | remove n =>
      have hstep : runOps st (Op.remove n :: rest) = runOps (remove_server st n) rest := rfl
      have hAS : addedServers (Op.remove n :: rest) = addedServers rest := rfl
      rw [hAS] at h1 h2
      have hdisj : ∀ a ∈ added, ∀ b ∈ added, a ≠ b →
          ∀ x ∈ toolNames a, x ∈ toolNames b → False := by
        have hpair : (added ++ addedServers rest).Pairwise (List.Disjoint on toolNames) :=
          (List.nodup_flatMap.mp h2).2
        have hpadded : added.Pairwise (List.Disjoint on toolNames) :=
          hpair.sublist (List.sublist_append_left _ _)
        have hnd : added.Nodup := by
          have : (serverNames added).Nodup := by
            rw [serverNames, List.map_append] at h1
            exact ((List.nodup_append.mp h1).1)
          exact this.of_map _
        have hsym : Symmetric (List.Disjoint on toolNames) :=
          fun a b hab => List.disjoint_comm.mp hab
        intro a ha b hb hab x hxa hxb
        exact hpadded.forall hsym ha hb hab hxa hxb
      have := ih (GoodT_remove g n hdisj) h1 h2
      rw [hstep, hAS]
      exact this

/-- Evolution of `_all_servers_tools` along a call sequence with distinct
server control names: the final list is the current list minus the entries
a later removal deletes, followed by the surviving later additions. -/
theorem runOps_list (ops : List Op) :
    ∀ {st : Registry} {added : List Server}, GoodL added st →
      (serverNames (added ++ addedServers ops)).Nodup →
      (runOps st ops).all_servers_tools =
        st.all_servers_tools.filter
          (fun p => decide (Op.remove p.1.control_name ∉ ops))
        ++ survivors ops := by
  induction ops with
  | nil =>
    intro st added g h1
    simp [runOps, survivors]
  | cons op rest ih =>
    intro st added g h1
    cases op with
    | add s =>
      have hstep : runOps st (Op.add s :: rest) = runOps (add_server st s) rest := rfl
      have hAS : addedServers (Op.add s :: rest) = s :: addedServers rest := rfl
      rw [hAS] at h1
      have hfresh : s.control_name ∉ serverNames added := by
        have hnd := h1
        rw [serverNames, List.map_append, List.map_cons] at hnd
        intro hmem
        exact (List.nodup_append.mp hnd).2.2 hmem (List.mem_cons_self _ _)
      have h1' : (serverNames ((added ++ [s]) ++ addedServers rest)).Nodup := by
        rw [List.append_assoc, List.singleton_append]
        exact h1
      have hIH := ih (GoodL_add g hfresh) h1'
      rw [hstep, hIH, add_server_def]
      rw [show ({ st with
            servers_map := dinsert s.control_name s st.servers_map
            all_servers_tools := st.all_servers_tools ++ [(s, s.tools)]
            tools_map := insertTools s.tools st.tools_map } : Registry).all_servers_tools
          = st.all_servers_tools ++ [(s, s.tools)] from rfl]
      rw [List.filter_append]
      have hfc : st.all_servers_tools.filter
            (fun p => decide (Op.remove p.1.control_name ∉ rest))
          = st.all_servers_tools.filter
            (fun p => decide (Op.remove p.1.control_name ∉ Op.add s :: rest)) := by
        refine List.filter_congr (fun p _ => ?_)
        simp [List.mem_cons]
      rw [hfc]
      by_cases hmem : Op.remove s.control_name ∈ rest
      · have hs : survivors (Op.add s :: rest) = survivors rest := by
          simp [survivors, hmem]
        rw [hs]
        simp [hmem]
      · have hs : survivors (Op.add s :: rest) = (s, s.tools) :: survivors rest := by
          simp [survivors, hmem, Server.list_tools]
        rw [hs]
        simp [hmem]
    | remove n =>
      have hstep : runOps st (Op.remove n :: rest) = runOps (remove_server st n) rest := rfl
      have hAS : addedServers (Op.remove n :: rest) = addedServers rest := rfl
      rw [hAS] at h1
      have hIH := ih (GoodL_remove g n) h1
      rw [hstep, hIH]
      rw [show survivors (Op.remove n :: rest) = survivors rest from rfl]
      congr 1
      cases h : dlookup n st.servers_map with
      | none =>
        have hnoop : remove_server st n = st := by
          unfold remove_server
          rw [remove_server_t_absent h]
        rw [hnoop]
        refine List.filter_congr (fun p hp => ?_)
        have hpn : p.1.control_name ≠ n := by
          intro heq
          have hl := (g.list_lookup p hp).1
          rw [heq, h] at hl
          exact Option.noConfusion hl
        simp [List.mem_cons, hpn]
      | some server =>
        have hname : server.control_name = n := (g.map_list _ (dlookup_mem h)).1
        have hd : (remove_server st n).all_servers_tools
            = st.all_servers_tools.filter (fun p => decide (p.1 ≠ server)) := by
          unfold remove_server
          rw [remove_server_t_found h]
        rw [hd, List.filter_filter]
        refine List.filter_congr (fun p hp => ?_)
        have hiff : p.1 = server ↔ p.1.control_name = n := by
          constructor
          · intro heq
            rw [heq, hname]
          · intro heq
            have hl := (g.list_lookup p hp).1
            rw [heq, h] at hl
            exact (Option.some.inj hl).symm
        by_cases hpn : p.1.control_name = n
        · have hps : p.1 = server := hiff.mpr hpn
          simp [List.mem_cons, hpn, hps, hname]
        · have hps : p.1 ≠ server := fun heq => hpn (hiff.mp heq)
          simp [List.mem_cons, hpn, hps]

/-! ### Remaining helper lemmas -/

theorem addedServers_append (l₁ l₂ : List Op) :
    addedServers (l₁ ++ l₂) = addedServers l₁ ++ addedServers l₂ := by
  induction l₁ with
  | nil => rfl
  | cons op rest ih => cases op <;> simp [addedServers, ih]

theorem registerAll_all_servers_tools (build : Config → Option Server) :
    ∀ (st : Registry) (cs : List Config),
      (registerAll build st cs).all_servers_tools
        = st.all_servers_tools
          ++ cs.filterMap (fun c => (build c).map (fun s => (s, s.tools))) := by
  intro st cs
  induction cs generalizing st with
  | nil => simp [registerAll]
  | cons c cs ih =>
    have hstep : registerAll build st (c :: cs)
        = registerAll build
            (match build c with | some sv => registerServer st sv | none => st) cs := rfl
    cases hbc : build c with
    | none =>
      rw [hstep, hbc]
      simp [ih, List.filterMap_cons, hbc]
    | some sv =>
      rw [hstep, hbc]
      have hreg : (registerServer st sv).all_servers_tools
          = st.all_servers_tools ++ [(sv, sv.tools)] := rfl
      rw [ih, hreg]
      simp [List.filterMap_cons, hbc]

/-! ### The claims -/

/-- C1: for every sequence of `add_server`/`remove_server` calls on a
fresh controller in which all server control names and all derived tool
control names are distinct, after each call the key set of `_tools_map`
equals the union of the tool control names of the tools belonging to the
currently registered servers (the values of `_servers_map`). -/
theorem tools_map_keys_match_registered (ops pre suf : List Op)
    (hd : DistinctNames ops) (hsplit : ops = pre ++ suf) :
    ToolIndexMatches (runOps Registry.empty pre) := by
  subst hsplit
  obtain ⟨h1, h2⟩ := hd
  rw [addedServers_append] at h1 h2
  have h1' : (serverNames (addedServers pre)).Nodup := by
    rw [serverNames, List.map_append] at h1
    exact (List.nodup_append.mp h1).1
  have h2' : ((addedServers pre).flatMap toolNames).Nodup := by
    rw [List.flatMap_append] at h2
    exact (List.nodup_append.mp h2).1
  have g := GoodT_run pre GoodT_nil (by simpa using h1') (by simpa using h2')
  intro k
  simpa using g.tools_iff k

/-- Witness for C1 at a concrete one-call sequence. -/
theorem tools_map_keys_match_registered_witness :
    DistinctNames [Op.add exServerA] ∧
    ToolIndexMatches (runOps Registry.empty [Op.add exServerA]) :=
  ⟨⟨by decide, by decide⟩,
    tools_map_keys_match_registered [Op.add exServerA] [Op.add exServerA] []
      ⟨by decide, by decide⟩ (by simp)⟩

/-- C2 (supporting evaluation): on a registry holding server "A",
`remove_server "A"` performs the downstream calls `shutdown()` and then
`list_tools()` on that server, in that order — the tool purge list is
re-queried from the already-shut-down connection rather than taken from
the list captured at add time. -/
theorem remove_server_requeries_after_shutdown :
    (remove_server_t exRegistryA "A").2
      = [DCall.shutdownCall exServerA, DCall.listToolsCall exServerA] := by
  decide

/-- C3 (supporting evaluation): on a registry holding servers "A" and
"B" where the `shutdown()` of "A" raises, `shutdown()` of the controller
neither shuts "B" down nor reaches `exit_stack.aclose()`: the shared
resource scope is not closed when an individual shutdown fails. -/
theorem shutdown_skips_close_on_failure :
    shutdownController exRegistryAB exFails
      = ⟨[], false, some exServerA⟩ := by
  decide

/-- C4: on a registry whose keys collide neither with the new server's
control name nor with its tools' control names, and which does not
already hold the (fresh) server object, `add_server` immediately followed
by `remove_server` of the same control name restores the registry state
exactly. -/
theorem add_then_remove_roundtrip (st : Registry) (s : Server)
    (h1 : dmem s.control_name st.servers_map = false)
    (h2 : ∀ t ∈ s.tools, dmem t.control_name st.tools_map = false)
    (h3 : ∀ p ∈ st.all_servers_tools, p.1 ≠ s) :
    remove_server (add_server st s) s.control_name = st := by
  have hlook : dlookup s.control_name (add_server st s).servers_map = some s := by
    rw [add_server_def]
    exact dlookup_dinsert_self _ _ _
  have hserv : dremove s.control_name (dinsert s.control_name s st.servers_map)
      = st.servers_map := by
    rw [dinsert_fresh s h1, dremove_append h1]
    simp [dremove]
  have hlist : (st.all_servers_tools ++ [(s, s.tools)]).filter
      (fun p => decide (p.1 ≠ s)) = st.all_servers_tools := by
    rw [List.filter_append]
    have h4 : st.all_servers_tools.filter (fun p => decide (p.1 ≠ s))
        = st.all_servers_tools :=
      List.filter_eq_self.mpr (fun p hp => decide_eq_true (h3 p hp))
    have h5 : ([(s, s.tools)] : List (Server × List Tool)).filter
        (fun p => decide (p.1 ≠ s)) = [] := by simp
    rw [h4, h5, List.append_nil]
  have htools : dpurge (toolNames s) (insertTools s.tools st.tools_map)
      = st.tools_map := by
    rcases insertTools_split st.tools_map [] h2 with ⟨e', he', hsub, hnd⟩
    rw [List.append_nil] at he'
    rw [he']
    refine dpurge_cancel st.tools_map e' ?_ (hnd (by simp [dkeys])) ?_
    · intro nm hnm
      rcases List.mem_map.mp hnm with ⟨t, ht, rfl⟩
      exact h2 t ht
    · intro k hk
      rcases hsub k hk with h' | h'
      · simp [dkeys] at h'
      · exact h'
  unfold remove_server
  rw [remove_server_t_found hlook]
  show Registry.mk
      ((add_server st s).all_servers_tools.filter (fun p => decide (p.1 ≠ s)))
      (dremove s.control_name (add_server st s).servers_map)
      (dpurge (toolNames s) (add_server st s).tools_map)
      (add_server st s).initialized
    = st
  have hA : (add_server st s).all_servers_tools
      = st.all_servers_tools ++ [(s, s.tools)] := rfl
  have hS : (add_server st s).servers_map
      = dinsert s.control_name s st.servers_map := rfl
  have hT : (add_server st s).tools_map = insertTools s.tools st.tools_map := rfl
  have hI : (add_server st s).initialized = st.initialized := rfl
  rw [hA, hS, hT, hI, hserv, hlist, htools]

/-- Witness for C4 at a concrete registry and fresh server. -/
theorem add_then_remove_roundtrip_witness :
    dmem exServerC.control_name exRegistryA.servers_map = false ∧
    (∀ t ∈ exServerC.tools, dmem t.control_name exRegistryA.tools_map = false) ∧
    (∀ p ∈ exRegistryA.all_servers_tools, p.1 ≠ exServerC) ∧
    remove_server (add_server exRegistryA exServerC) exServerC.control_name
      = exRegistryA :=
  ⟨by decide, by decide, by decide,
    add_then_remove_roundtrip exRegistryA exServerC (by decide) (by decide) (by decide)⟩

/-- C5: `initialize` registers each config sequentially in the order
given; when registering some config fails, the loop stops there — the
remaining configs are not registered, the error propagates before the
`_initialized` flag is set, and every server registered before the
failure stays registered (no rollback).  The second conjunct records that
the successful registrations extend the ordered list in config order. -/
theorem initializeConfigs_first_failure (build : Config → Option Server)
    (st : Registry) (good : List Config) (bad : Config) (rest : List Config)
    (hg : ∀ c ∈ good, (build c).isSome = true) (hb : build bad = none) :
    initializeConfigs build st (good ++ bad :: rest)
      = (registerAll build st good, some bad) ∧
    (registerAll build st good).all_servers_tools
      = st.all_servers_tools
        ++ good.filterMap (fun c => (build c).map (fun s => (s, s.tools))) := by
  refine ⟨?_, registerAll_all_servers_tools build st good⟩
  induction good generalizing st with
  | nil =>
    show initializeConfigs build st (bad :: rest) = (st, some bad)
    show (match build bad with
      | none => (st, some bad)
      | some server => initializeConfigs build (registerServer st server) rest)
      = (st, some bad)
    rw [hb]
  | cons c cs ih =>
    have hc := hg c (List.mem_cons_self _ _)
    rcases Option.isSome_iff_exists.mp hc with ⟨sv, hsv⟩
    have hstep : initializeConfigs build st ((c :: cs) ++ bad :: rest)
        = (match build c with
           | none => (st, some c)
           | some server => initializeConfigs build (registerServer st server) (cs ++ bad :: rest)) := rfl
    have hreg : registerAll build st (c :: cs)
        = registerAll build
            (match build c with | some sv => registerServer st sv | none => st) cs := rfl
    rw [hstep, hreg, hsv]
    exact ih (registerServer st sv) (fun c' hc' => hg c' (List.mem_cons_of_mem _ hc'))

/-- Witness for C5 at a concrete config list whose middle config fails. -/
theorem initializeConfigs_first_failure_witness :
    (∀ c ∈ [Config.mk "g1"], (exBuild c).isSome = true) ∧
    exBuild (Config.mk "bad") = none ∧
    initializeConfigs exBuild Registry.empty
        ([Config.mk "g1"] ++ Config.mk "bad" :: [Config.mk "g2"])
      = (registerAll exBuild Registry.empty [Config.mk "g1"], some (Config.mk "bad")) ∧
    (registerAll exBuild Registry.empty [Config.mk "g1"]).all_servers_tools
      = Registry.empty.all_servers_tools
        ++ [Config.mk "g1"].filterMap
            (fun c => (exBuild c).map (fun s => (s, s.tools))) := by
  have h := initializeConfigs_first_failure exBuild Registry.empty
    [Config.mk "g1"] (Config.mk "bad") [Config.mk "g2"] (by decide) (by decide)
  exact ⟨by decide, by decide, h.1, h.2⟩

/-- C6: `add_server` with a control name already present raises no error
and overwrites the `_servers_map` entry, and a tool whose derived control
name collides with an existing `_tools_map` key silently overwrites that
entry — no duplicate detection anywhere. -/
theorem add_server_overwrites_without_dedup (st : Registry) (s : Server)
    (_hs : dmem s.control_name st.servers_map = true)
    (t : Tool) (ht : lastToolNamed t.control_name s.tools = some t)
    (_hcol : dmem t.control_name st.tools_map = true) :
    dlookup s.control_name (add_server st s).servers_map = some s ∧
    dlookup t.control_name (add_server st s).tools_map = some t := by
  constructor
  · rw [add_server_def]
    exact dlookup_dinsert_self _ _ _
  · rw [add_server_def]
    show dlookup t.control_name (insertTools s.tools st.tools_map) = some t
    rw [dlookup_insertTools, ht]

/-- Witness for C6: re-adding a server named "A" whose tool reuses the
derived name "A.t1". -/
theorem add_server_overwrites_without_dedup_witness :
    dmem exServerA2.control_name exRegistryA.servers_map = true ∧
    lastToolNamed exToolA.control_name exServerA2.tools = some exToolA ∧
    dmem exToolA.control_name exRegistryA.tools_map = true ∧
    dlookup exServerA2.control_name (add_server exRegistryA exServerA2).servers_map
      = some exServerA2 ∧
    dlookup exToolA.control_name (add_server exRegistryA exServerA2).tools_map
      = some exToolA := by
  have h := add_server_overwrites_without_dedup exRegistryA exServerA2
    (by decide) exToolA (by decide) (by decide)
  exact ⟨by decide, by decide, by decide, h.1, h.2⟩

/-- C7: starting from a fresh controller, for any call sequence whose
added servers bear pairwise distinct control names,
`list_all_servers_tools` returns exactly the pairs of the servers still
registered, in their original registration order: removed servers drop
out and the survivors keep their relative order. -/
theorem list_all_servers_tools_registration_order (ops : List Op)
    (h : (serverNames (addedServers ops)).Nodup) :
    list_all_servers_tools (runOps Registry.empty ops) = survivors ops := by
  have hrun := runOps_list ops GoodL_nil (by simpa using h)
  simpa [list_all_servers_tools, Registry.empty] using hrun

/-- Witness for C7: add "A", add "B", remove "A" leaves exactly "B". -/
theorem list_all_servers_tools_registration_order_witness :
    (serverNames (addedServers
        [Op.add exServerA, Op.add exServerB, Op.remove "A"])).Nodup ∧
    list_all_servers_tools (runOps Registry.empty
        [Op.add exServerA, Op.add exServerB, Op.remove "A"])
      = survivors [Op.add exServerA, Op.add exServerB, Op.remove "A"] :=
  ⟨by decide,
    list_all_servers_tools_registration_order
      [Op.add exServerA, Op.add exServerB, Op.remove "A"] (by decide)⟩

/-- C8: `remove_server` on a control name absent from `_servers_map`
leaves the whole registry state unchanged, performs no downstream call,
and never fails. -/
theorem remove_server_absent_is_noop (st : Registry) (n : String)
    (h : dmem n st.servers_map = false) :
    remove_server_t st n = (st, []) :=
  remove_server_t_absent (dmem_false_iff.mp h)

/-- Witness for C8 at a concrete absent name. -/
theorem remove_server_absent_is_noop_witness :
    dmem "Z" exRegistryA.servers_map = false ∧
    remove_server_t exRegistryA "Z" = (exRegistryA, []) :=
  ⟨by decide, remove_server_absent_is_noop exRegistryA "Z" (by decide)⟩

/-- C9: the boundary add operation answers 409 (conflict) without
invoking the registry's `add_server` — leaving the registry untouched —
when the submitted control name already exists, and on a fresh name it
invokes `add_server` and answers 201 with a success acknowledgment. -/
theorem add_new_server_conflict_and_success (build : Config → Option Server)
    (st : Registry) (cfg : Config) :
    (∀ s, dlookup cfg.name st.servers_map = some s →
      add_new_server build st cfg = ⟨ApiResult.conflict cfg.name, st, false⟩ ∧
      (add_new_server build st cfg).result.statusCode = 409) ∧
    (dlookup cfg.name st.servers_map = none →
      ∀ sv, build cfg = some sv →
        add_new_server build st cfg
          = ⟨ApiResult.created cfg.name, add_server st sv, true⟩ ∧
        (add_new_server build st cfg).result.statusCode = 201) := by
  constructor
  · intro s hs
    have hc : add_new_server build st cfg
        = ⟨ApiResult.conflict cfg.name, st, false⟩ := by
      unfold add_new_server
      rw [hs]
    exact ⟨hc, by rw [hc]; rfl⟩
  · intro hn sv hsv
    have hc : add_new_server build st cfg
        = ⟨ApiResult.created cfg.name, add_server st sv, true⟩ := by
      unfold add_new_server
      rw [hn, hsv]
    exact ⟨hc, by rw [hc]; rfl⟩

/-- Witness for C9: duplicate name "A" is rejected with the registry
unchanged and `add_server` not invoked; fresh name "g1" is created. -/
theorem add_new_server_conflict_and_success_witness :
    add_new_server exBuild exRegistryA (Config.mk "A")
      = ⟨ApiResult.conflict "A", exRegistryA, false⟩ ∧
    add_new_server exBuild exRegistryA (Config.mk "g1")
      = ⟨ApiResult.created "g1", add_server exRegistryA ⟨7, "g1", []⟩, true⟩ :=
  ⟨((add_new_server_conflict_and_success exBuild exRegistryA (Config.mk "A")).1
      exServerA (by decide)).1,
    ((add_new_server_conflict_and_success exBuild exRegistryA (Config.mk "g1")).2
      (by decide) ⟨7, "g1", []⟩ (by decide)).1⟩

/-- C10: adding a server whose control name is already registered keeps
the old (server, tool-list) pair in the ordered list and appends the new
one — so `list_all_servers_tools` then carries two entries bearing that
control name — while `get_server_by_control_name` answers only the newer
server: the overwrite hits the maps, not the ordered list. -/
theorem add_server_duplicate_name_list_vs_map (st : Registry) (s1 : Server)
    (tl : List Tool) (s2 : Server)
    (h1 : (s1, tl) ∈ st.all_servers_tools)
    (_hname : s1.control_name = s2.control_name)
    (_hne : s1 ≠ s2) :
    list_all_servers_tools (add_server st s2)
      = st.all_servers_tools ++ [(s2, s2.tools)] ∧
    (s1, tl) ∈ list_all_servers_tools (add_server st s2) ∧
    (s2, s2.tools) ∈ list_all_servers_tools (add_server st s2) ∧
    get_server_by_control_name (add_server st s2) s2.control_name = some s2 := by
  refine ⟨?_, ?_, ?_, ?_⟩
  · rfl
  · exact List.mem_append.mpr (Or.inl h1)
  · exact List.mem_append.mpr (Or.inr (by simp [Server.list_tools]))
  · show dlookup s2.control_name (dinsert s2.control_name s2 st.servers_map) = some s2
    exact dlookup_dinsert_self _ _ _

/-- Witness for C10: re-adding control name "A" as a fresh object. -/
theorem add_server_duplicate_name_list_vs_map_witness :
    (exServerA, [exToolA]) ∈ exRegistryA.all_servers_tools ∧
    exServerA.control_name = exServerA2.control_name ∧
    exServerA ≠ exServerA2 ∧
    list_all_servers_tools (add_server exRegistryA exServerA2)
      = exRegistryA.all_servers_tools ++ [(exServerA2, exServerA2.tools)] ∧
    (exServerA, [exToolA]) ∈ list_all_servers_tools (add_server exRegistryA exServerA2) ∧
    (exServerA2, exServerA2.tools)
      ∈ list_all_servers_tools (add_server exRegistryA exServerA2) ∧
    get_server_by_control_name (add_server exRegistryA exServerA2)
        exServerA2.control_name
      = some exServerA2 := by
  have h := add_server_duplicate_name_list_vs_map exRegistryA exServerA [exToolA]
    exServerA2 (by decide) (by decide) (by decide)
  exact ⟨by decide, by decide, by decide, h.1, h.2.1, h.2.2.1, h.2.2.2⟩

end MCPComposer
